import Mathlib

/-!
Verification of the linkdoc crawler (src/crawling.rs, src/fetching.rs).

The development is a shallow embedding:

* `fetching.rs` is embedded as pure functions (`build_url`, `url_status`,
  `fetch_url`, `fetch_all_urls`) parameterised over oracles for the external
  collaborators (the `url` crate and the `reqwest` HTTP client), collected in
  the `Net` structure.
* `crawling.rs` is embedded as a small-step transition system: `CrawlState`
  is the shared state of one crawl (pending-URL channel, visited set,
  in-flight counter, outcome channel, the phase of each of the 10 worker
  threads, and the state of the consuming `Crawler` iterator), and
  `applyStep` performs one atomic action of one thread.  Each action
  corresponds to one critical section / channel operation of the Rust code,
  so interleavings of the scheduler are modelled by the order of actions in
  a trace run by `run`.

Note on the two source files: `crawling.rs` matches outcomes with the older
single-payload pattern `UrlState::Accessible(ref url)` while `fetching.rs`
defines `UrlState::Accessible(String, Url)` carrying the origin reference in
the first field.  The embedding uses the `fetching.rs` shape of the enum and
adjusts the worker's pattern to ignore the origin field, which is what the
worker's domain check uses.
-/

/-- Model of `url::Url`: `scheme` is `Url::scheme()`, `domain` is
`Url::domain()` (`none` for hosts that are not domains, e.g. IP addresses),
and `full` is the serialized URL string (`Url::as_str()`). -/
structure Url where
  scheme : String
  domain : Option String
  full : String
deriving DecidableEq, Repr

/-- The `UrlState` enum of fetching.rs.  HTTP status codes are modelled as
naturals. -/
inductive UrlState where
  | Accessible (old_url : String) (url : Url)
  | BadStatus (old_url : String) (url : Url) (status : Nat)
  | ConnectionFailed (old_url : String) (url : Url)
  | TimedOut (old_url : String) (url : Url)
  | Malformed (old_url : String) (raw : String)
deriving DecidableEq, Repr

/-- The origin reference carried by every `UrlState` variant (the first
field, `old_url`, displayed by the `fmt::Display` impl). -/
def originOf : UrlState → String
  | .Accessible o _ => o
  | .BadStatus o _ _ => o
  | .ConnectionFailed o _ => o
  | .TimedOut o _ => o
  | .Malformed o _ => o

/-- What the raw HTTP GET primitive returns: a response with a status code,
or a transport-level failure (the `Err` of `reqwest::get`). -/
inductive FetchResult where
  | response (status : Nat)
  | failed
deriving DecidableEq, Repr

/-- Observable behaviour of one GET when raced against the deadline in
`url_status`: `result` is what the request thread sends on its channel, and
`inTime` records whether that message arrives before the 10-second
`default` arm of the `select!` fires.  When `inTime` is `false` the late
`result` is unobservable to `url_status`. -/
structure FetchOut where
  result : FetchResult
  inTime : Bool
deriving DecidableEq, Repr

/-- Model of `url::ParseError`. -/
inductive ParseErr where
  | invalid
deriving DecidableEq, Repr

/-- Oracles for the external collaborators of fetching.rs: `parse` and
`join` model `Url::parse` and `Url::join` of the `url` crate; `get` models
the raced GET of `url_status`; `getBody` models the GET performed by
`fetch_url` (`none` is a failed request, `some t` a response whose
`text()` gives `t`, with `t = none` when reading the body fails);
`getUrls` — modelled from the spec: the HTML link-extraction collaborator
`parsing::get_urls` (its file is not part of the examined sources), which
given page text produces a finite sequence of raw link strings. -/
structure Net where
  parse : String → Except ParseErr Url
  join : Url → String → Except ParseErr Url
  get : Url → FetchOut
  getBody : Url → Option (Option String)
  getUrls : String → List String

/-- The `build_url` function of fetching.rs: prepend the literal prefix
`"http://"` to the domain, parse it, and join the path against it. -/
def build_url (net : Net) (domain path : String) : Except ParseErr Url := do
  let base_url ← net.parse ("http://" ++ domain)
  net.join base_url path

/-- The `TIMEOUT_SECS` constant of fetching.rs. -/
def TIMEOUT_SECS : Nat := 10

/-- Model of `reqwest::StatusCode::is_success` (2xx). -/
def isSuccess (status : Nat) : Bool := 200 ≤ status && status < 300

/-- The `UrlState` computed by the request thread spawned in `url_status`
from the result of `reqwest::get`. -/
def requestState (old_path : String) (url : Url) : FetchResult → UrlState
  | .response status =>
    if isSuccess status then .Accessible old_path url
    else .BadStatus old_path url status
  | .failed => .ConnectionFailed old_path url

/-- The `url_status` function of fetching.rs: resolve the path against the
domain; on failure return `Malformed` (no request is made); on success race
the GET against the deadline: an in-time message wins, otherwise the
`default` arm returns `TimedOut`. -/
def url_status (net : Net) (domain old_path path : String) : UrlState :=
  match build_url net domain path with
  | .ok url =>
    let out := net.get url
    if out.inTime then requestState old_path url out.result
    else .TimedOut old_path url
  | .error _ => .Malformed old_path path

/-- The `fetch_url` function of fetching.rs.  `reqwest::get(...).expect(...)`
panics on a failed request, modelled by `none`; on success, a body that
fails to decode is replaced by the empty string. -/
def fetch_url (net : Net) (url : Url) : Option String :=
  match net.getBody url with
  | some text => some (text.getD "")
  | none => none

/-- The `fetch_all_urls` function of fetching.rs: fetch the page (which may
panic) and extract the raw link strings. -/
def fetch_all_urls (net : Net) (url : Url) : Option (List String) :=
  (fetch_url net url).map net.getUrls

/-- The `THREADS` constant of crawling.rs (`const THREADS: i32 = 10`). -/
def THREADS : Int := 10

/-- Phase of one worker thread inside the loop of `crawl_worker_thread`.
Each phase boundary is a lock acquisition/release or a channel operation of
the source.  `claimed` is the point where `url_r.try_recv()` returned `Ok`
but the in-flight counter has not been incremented yet; `counted` is after
the increment block; `fetching` is after the visited-set critical section
inserted the URL; `expanding` holds the `UrlState` computed by `url_status`;
`finished` is after the link-expansion block; `publishing` is after the
decrement block and before `url_states.send`; `dead` is a worker whose
thread panicked (a failed `assert!` or the `expect` inside the second
fetch); `exited` is a worker that left its loop. -/
inductive WPhase where
  | idle
  | claimed (current : String)
  | counted (current : String)
  | fetching (current : String)
  | expanding (current : String) (state : UrlState)
  | finished (current : String) (state : UrlState)
  | publishing (current : String) (state : UrlState)
  | dead (current : String)
  | exited
deriving DecidableEq, Repr

/-- Phase of the consuming `Crawler` iterator: still pulling, or it has
returned `None` (the lazy sequence has ended). -/
inductive CPhase where
  | streaming
  | ended
deriving DecidableEq, Repr

/-- Crawl-level oracles: the target domain, the outcome `url_status`
produces for a claimed URL string (this folds the whole network interaction
of the first fetch into one value), and the links found by
`fetch_all_urls` on the resolved URL of an accessible page (`none` models
the panic of `fetch_url`'s `expect` when the second fetch fails). -/
structure Env where
  domain : String
  status : String → UrlState
  links : Url → Option (List String)

/-- Shared state of one crawl plus the local phase of every thread.
`queue` is the `visit_s`/`visit_r` channel (FIFO), `visited` the mutexed
`HashSet` (as its list of insertions, most recent first), `active` the
mutexed `i32` in-flight counter, `chan` the `url_states` channel, `workers`
the 10 worker phases, `consumer`/`yielded` the state and output of the
`Crawler` iterator.  Outcomes in `chan`/`yielded` are tagged (as a ghost
component, first of the pair) with the claimed URL string they resulted
from.  `enqueued` is a ghost history of every URL ever sent to the queue. -/
structure CrawlState where
  queue : List String
  visited : List String
  active : Int
  chan : List (String × UrlState)
  workers : List WPhase
  consumer : CPhase
  yielded : List (String × UrlState)
  enqueued : List String
deriving DecidableEq, Repr

/-- One atomic action of the system: worker `i` performs the next critical
section / channel operation its phase allows, or the consumer performs one
arm of `Crawler::next`. -/
inductive Act where
  | wClaim (i : Nat)
  | wCount (i : Nat)
  | wDedup (i : Nat)
  | wFetch (i : Nat)
  | wExpand (i : Nat)
  | wDone (i : Nat)
  | wSend (i : Nat)
  | wPoll (i : Nat)
  | cNext
  | cPoll
deriving DecidableEq, Repr

/-- One small step of the crawl, `none` when the action is not enabled in
this state.  Traceability to crawling.rs:
`wClaim` = `url_r.try_recv()` returning `Ok(current)` (line 57);
`wCount` = the increment block with its `assert!(*active_count_val <= THREADS)`
(lines 59–63, a failed assert kills the thread);
`wDedup` = the visited-set critical section (lines 65–76): membership check
and insertion under one lock, the duplicate branch decrementing the counter
and continuing the loop;
`wFetch` = `let state = url_status(&domain, &current)` (line 79);
`wExpand` = the expansion block (lines 81–89): only an `Accessible` state
whose URL's `domain()` equals `Some(&domain)` calls `fetch_all_urls` and
sends every found URL (a panicking `fetch_url` kills the thread);
`wDone` = the decrement block with `assert!(*active_count_val >= 0)`
(lines 91–96);
`wSend` = `url_states.send(state)` (line 98);
`wPoll` = the `Err` arm (lines 100–111): with work possibly in flight the
worker snoozes and retries, with a zero counter it breaks out of the loop;
`cNext`/`cPoll` = the two arms of `Crawler::next` (lines 18–40). -/
def applyStep (env : Env) (s : CrawlState) : Act → Option CrawlState
  | .wClaim i =>
    match s.workers[i]? with
    | some .idle =>
      match s.queue with
      | [] => none
      | current :: rest =>
        some { s with queue := rest, workers := s.workers.set i (.claimed current) }
    | _ => none
  | .wCount i =>
    match s.workers[i]? with
    | some (.claimed current) =>
      if s.active + 1 ≤ THREADS then
        some { s with active := s.active + 1,
                      workers := s.workers.set i (.counted current) }
      else
        some { s with active := s.active + 1,
                      workers := s.workers.set i (.dead current) }
    | _ => none
  | .wDedup i =>
    match s.workers[i]? with
    | some (.counted current) =>
      if current ∈ s.visited then
        some { s with active := s.active - 1, workers := s.workers.set i .idle }
      else
        some { s with visited := current :: s.visited,
                      workers := s.workers.set i (.fetching current) }
    | _ => none
  | .wFetch i =>
    match s.workers[i]? with
    | some (.fetching current) =>
      some { s with workers := s.workers.set i (.expanding current (env.status current)) }
    | _ => none
  | .wExpand i =>
    match s.workers[i]? with
    | some (.expanding current state) =>
      match state with
      | .Accessible _ url =>
        if url.domain = some env.domain then
          match env.links url with
          | some new_urls =>
            some { s with queue := s.queue ++ new_urls,
                          enqueued := s.enqueued ++ new_urls,
                          workers := s.workers.set i (.finished current state) }
          | none => some { s with workers := s.workers.set i (.dead current) }
        else some { s with workers := s.workers.set i (.finished current state) }
      | _ => some { s with workers := s.workers.set i (.finished current state) }
    | _ => none
  | .wDone i =>
    match s.workers[i]? with
    | some (.finished current state) =>
      if 0 ≤ s.active - 1 then
        some { s with active := s.active - 1,
                      workers := s.workers.set i (.publishing current state) }
      else
        some { s with active := s.active - 1,
                      workers := s.workers.set i (.dead current) }
    | _ => none
  | .wSend i =>
    match s.workers[i]? with
    | some (.publishing current state) =>
      some { s with chan := s.chan ++ [(current, state)],
                    workers := s.workers.set i .idle }
    | _ => none
  | .wPoll i =>
    match s.workers[i]? with
    | some .idle =>
      match s.queue with
      | [] =>
        if s.active = 0 then some { s with workers := s.workers.set i .exited }
        else some s
      | _ :: _ => none
    | _ => none
  | .cNext =>
    match s.consumer with
    | .streaming =>
      match s.chan with
      | p :: rest => some { s with chan := rest, yielded := s.yielded ++ [p] }
      | [] => none
    | .ended => none
  | .cPoll =>
    match s.consumer with
    | .streaming =>
      match s.chan with
      | [] =>
        if s.active = 0 then some { s with consumer := .ended }
        else some s
      | _ :: _ => none
    | .ended => none

/-- Run a trace of actions from a state. -/
def run (env : Env) (s : CrawlState) : List Act → Option CrawlState
  | [] => some s
  | a :: rest => (applyStep env s a).bind fun s2 => run env s2 rest

/-- The state produced by `crawl(domain, start_url)` right after seeding the
queue with the start URL and spawning the 10 workers (crawling.rs,
lines 118–152). -/
def initState (seed : String) : CrawlState :=
  { queue := [seed], visited := [], active := 0, chan := [],
    workers := List.replicate 10 WPhase.idle, consumer := .streaming,
    yielded := [], enqueued := [seed] }

/-- Worker phases lying between the counter increment and its matching
decrement (a `dead` worker never reaches its decrement). -/
def inFlight : WPhase → Bool
  | .counted _ => true
  | .fetching _ => true
  | .expanding _ _ => true
  | .finished _ _ => true
  | .dead _ => true
  | _ => false

/-- Number of in-flight workers. -/
def countIF (ws : List WPhase) : Nat := ws.countP inFlight

/-- Inductive invariant of the crawl: the pool has 10 workers, the shared
counter equals the number of in-flight workers, and no URL was ever
inserted into the visited set twice. -/
def INV (s : CrawlState) : Prop :=
  s.workers.length = 10 ∧ s.active = (countIF s.workers : Int) ∧ s.visited.Nodup

/-- A resolved URL on the crawl's target domain, used by the concrete
scenarios below. -/
def exUrl : Url := { scheme := "http", domain := some "d", full := "http://d/" }

/-- Environment in which every URL turns out malformed (no expansion). -/
def env1 : Env :=
  { domain := "d", status := fun u => .Malformed u u, links := fun _ => some [] }

/-- Environment in which every URL is accessible on the target domain and
each page contains the single link `"/a"`. -/
def env2 : Env :=
  { domain := "d", status := fun u => .Accessible u exUrl, links := fun _ => some ["/a"] }

/-- Environment in which every URL is accessible on the target domain but
the second fetch performed during expansion fails, so `fetch_all_urls`
panics. -/
def env3 : Env :=
  { domain := "d", status := fun u => .Accessible u exUrl, links := fun _ => none }

/-- A network in which resolution succeeds but every request fails at the
transport level: the raced GET of `url_status` reports the failure in time,
and the GET of `fetch_url` returns `Err`. -/
def net3 : Net :=
  { parse := fun _ => .ok exUrl, join := fun _ _ => .ok exUrl,
    get := fun _ => { result := .failed, inTime := true },
    getBody := fun _ => none, getUrls := fun _ => [] }

/-- A tiny standards-conforming URL library over the single domain `"d"`:
parsing accepts exactly `"http://d"`, and joining resolves a path against
the base, keeping its scheme and host. -/
def netW : Net :=
  { parse := fun str =>
      if str = "http://d" then .ok { scheme := "http", domain := some "d", full := str }
      else .error .invalid,
    join := fun base p =>
      .ok { scheme := base.scheme, domain := base.domain, full := base.full ++ p },
    get := fun _ => { result := .response 200, inTime := true },
    getBody := fun _ => some (some ""), getUrls := fun _ => [] }

/-- The URL `netW` resolves the path `"/a"` to. -/
def uW : Url := { scheme := "http", domain := some "d", full := "http://d/a" }

/-- A crawl state with an empty queue and all ten workers idle (witness
input). -/
def stEmpty : CrawlState := { initState "s" with queue := [] }

/-- A crawl state in which worker 0 holds the claimed URL `"s"` past the
counter increment (witness input). -/
def stC : CrawlState :=
  { stEmpty with active := 1,
                 workers := (List.replicate 10 WPhase.idle).set 0 (.counted "s") }

/-- A crawl state in which worker 0 has classified `"s"` as accessible on
the target domain and is about to expand it (witness input). -/
def stE : CrawlState :=
  { stEmpty with active := 1,
                 workers := (List.replicate 10 WPhase.idle).set 0
                   (.expanding "s" (.Accessible "s" exUrl)) }

/-! ### Generic list helpers -/

/-- Updating index `i` of a list changes `countP` by the difference between
the old and the new element's contribution. -/
theorem countP_set_balance {α : Type} (p : α → Bool) (l : List α) :
    ∀ (i : Nat) (a b : α), l[i]? = some b →
      (l.set i a).countP p + (if p b then 1 else 0)
        = l.countP p + (if p a then 1 else 0) := by
  induction l with
  | nil => intro i a b h; simp at h
  | cons c t ih =>
    intro i a b h
    cases i with
    | zero =>
      rw [List.getElem?_cons_zero, Option.some_inj] at h
      subst h
      simp [List.countP_cons]
      omega
    | succ n =>
      rw [List.getElem?_cons_succ] at h
      have h2 := ih n a b h
      simp [List.countP_cons]
      omega

/-- A position holding an element satisfying `p` forces a positive count. -/
theorem one_le_countP {α : Type} (p : α → Bool) (l : List α) (i : Nat) (b : α)
    (h : l[i]? = some b) (hp : p b = true) : 1 ≤ l.countP p :=
  List.countP_pos_iff.mpr ⟨b, List.getElem?_mem h, hp⟩

/-- A position holding an element not satisfying `p` keeps the count below
the length. -/
theorem countP_lt_of_false {α : Type} (p : α → Bool) (l : List α) :
    ∀ (i : Nat) (b : α), l[i]? = some b → p b = false →
      l.countP p + 1 ≤ l.length := by
  induction l with
  | nil => intro i b h; simp at h
  | cons c t ih =>
    intro i b h hp
    cases i with
    | zero =>
      rw [List.getElem?_cons_zero, Option.some_inj] at h
      subst h
      have := List.countP_le_length p (l := t)
      simp [List.countP_cons, hp]
      omega
    | succ n =>
      rw [List.getElem?_cons_succ] at h
      have h2 := ih n b h hp
      simp [List.countP_cons]
      split <;> omega

/-! ### The inductive invariant -/

/-- The invariant holds in the seeded initial state. -/
theorem inv_init (seed : String) : INV (initState seed) := by
  refine ⟨rfl, rfl, by simp [initState]⟩

/-- Every enabled step preserves the invariant. -/
theorem inv_step (env : Env) (s s' : CrawlState) (a : Act)
    (hinv : INV s) (h : applyStep env s a = some s') : INV s' := by
  obtain ⟨hlen, hact, hnd⟩ := hinv
  cases a with
  | wClaim i =>
    cases hw : s.workers[i]? with
    | none => simp [applyStep, hw] at h
    | some w =>
      cases w <;> simp [applyStep, hw] at h
      cases hq : s.queue with
      | nil => rw [hq] at h; simp at h
      | cons u rest =>
        rw [hq] at h
        simp at h
        subst h
        have hb := countP_set_balance inFlight s.workers i (.claimed u) .idle hw
        refine ⟨by simp [hlen], ?_, hnd⟩
        simp only [countIF] at hact ⊢
        simp [inFlight] at hb
        omega
  | wCount i =>
    cases hw : s.workers[i]? with
    | none => simp [applyStep, hw] at h
    | some w =>
      cases w <;> simp [applyStep, hw] at h
      rename_i u
      split at h <;> simp at h <;> subst h
      · have hb := countP_set_balance inFlight s.workers i (.counted u) (.claimed u) hw
        refine ⟨by simp [hlen], ?_, hnd⟩
        simp only [countIF] at hact ⊢
        simp [inFlight] at hb
        omega
      · -- the `assert!(*active_count_val <= THREADS)` branch cannot fire
        exfalso
        have hb := countP_lt_of_false inFlight s.workers i (.claimed u) hw (by simp [inFlight])
        simp only [countIF] at hact
        simp only [THREADS] at *
        omega
  | wDedup i =>
    cases hw : s.workers[i]? with
    | none => simp [applyStep, hw] at h
    | some w =>
      cases w <;> simp [applyStep, hw] at h
      rename_i u
      split at h <;> simp at h <;> subst h
      · have hb := countP_set_balance inFlight s.workers i .idle (.counted u) hw
        refine ⟨by simp [hlen], ?_, hnd⟩
        simp only [countIF] at hact ⊢
        simp [inFlight] at hb
        omega
      · have hb := countP_set_balance inFlight s.workers i (.fetching u) (.counted u) hw
        rename_i hmem
        refine ⟨by simp [hlen], ?_, List.nodup_cons.mpr ⟨hmem, hnd⟩⟩
        simp only [countIF] at hact ⊢
        simp [inFlight] at hb
        omega
  | wFetch i =>
    cases hw : s.workers[i]? with
    | none => simp [applyStep, hw] at h
    | some w =>
      cases w <;> simp [applyStep, hw] at h
      rename_i u
      subst h
      have hb := countP_set_balance inFlight s.workers i
        (.expanding u (env.status u)) (.fetching u) hw
      refine ⟨by simp [hlen], ?_, hnd⟩
      simp only [countIF] at hact ⊢
      simp [inFlight] at hb
      omega
  | wExpand i =>
    cases hw : s.workers[i]? with
    | none => simp [applyStep, hw] at h
    | some w =>
      cases w <;> simp [applyStep, hw] at h
      rename_i u st
      have hfin := countP_set_balance inFlight s.workers i (.finished u st) (.expanding u st) hw
      have hdead := countP_set_balance inFlight s.workers i (.dead u) (.expanding u st) hw
      simp [inFlight] at hfin hdead
      cases st <;> simp at h
      case Accessible o url =>
        split at h
        · cases hl : env.links url with
          | some ls =>
            rw [hl] at h; simp at h; subst h
            refine ⟨by simp [hlen], ?_, hnd⟩
            simp only [countIF] at hact ⊢
            omega
          | none =>
            rw [hl] at h; simp at h; subst h
            refine ⟨by simp [hlen], ?_, hnd⟩
            simp only [countIF] at hact ⊢
            omega
        · simp at h; subst h
          refine ⟨by simp [hlen], ?_, hnd⟩
          simp only [countIF] at hact ⊢
          omega
      all_goals
        subst h
        refine ⟨by simp [hlen], ?_, hnd⟩
        simp only [countIF] at hact ⊢
        omega
  | wDone i =>
    cases hw : s.workers[i]? with
    | none => simp [applyStep, hw] at h
    | some w =>
      cases w <;> simp [applyStep, hw] at h
      rename_i u st
      split at h <;> simp at h <;> subst h
      · have hb := countP_set_balance inFlight s.workers i (.publishing u st) (.finished u st) hw
        refine ⟨by simp [hlen], ?_, hnd⟩
        simp only [countIF] at hact ⊢
        simp [inFlight] at hb
        omega
      · -- the `assert!(*active_count_val >= 0)` branch cannot fire
        exfalso
        have hb := one_le_countP inFlight s.workers i (.finished u st) hw (by simp [inFlight])
        simp only [countIF] at hact
        omega
  | wSend i =>
    cases hw : s.workers[i]? with
    | none => simp [applyStep, hw] at h
    | some w =>
      cases w <;> simp [applyStep, hw] at h
      rename_i u st
      subst h
      have hb := countP_set_balance inFlight s.workers i .idle (.publishing u st) hw
      refine ⟨by simp [hlen], ?_, hnd⟩
      simp only [countIF] at hact ⊢
      simp [inFlight] at hb
      omega
  | wPoll i =>
    cases hw : s.workers[i]? with
    | none => simp [applyStep, hw] at h
    | some w =>
      cases w <;> simp [applyStep, hw] at h
      cases hq : s.queue with
      | nil =>
        rw [hq] at h
        simp at h
        split at h <;> simp at h <;> subst h
        · have hb := countP_set_balance inFlight s.workers i .exited .idle hw
          refine ⟨by simp [hlen], ?_, hnd⟩
          simp only [countIF] at hact ⊢
          simp [inFlight] at hb
          omega
        · exact ⟨hlen, hact, hnd⟩
      | cons u rest => rw [hq] at h; simp at h
  | cNext =>
    cases hc : s.consumer <;> simp [applyStep, hc] at h
    cases hch : s.chan with
    | nil => rw [hch] at h; simp at h
    | cons p rest =>
      rw [hch] at h
      simp at h
      subst h
      exact ⟨hlen, hact, hnd⟩
  | cPoll =>
    cases hc : s.consumer <;> simp [applyStep, hc] at h
    cases hch : s.chan with
    | nil =>
      rw [hch] at h
      simp at h
      split at h <;> simp at h <;> subst h
      · exact ⟨hlen, hact, hnd⟩
      · exact ⟨hlen, hact, hnd⟩
    | cons p rest => rw [hch] at h; simp at h

/-- The invariant holds along every run. -/
theorem inv_run (env : Env) (acts : List Act) :
    ∀ s s', INV s → run env s acts = some s' → INV s' := by
  induction acts with
  | nil =>
    intro s s' hi h
    simp [run] at h
    subst h
    exact hi
  | cons a rest ih =>
    intro s s' hi h
    simp only [run, Option.bind_eq_some] at h
    obtain ⟨m, ha, h2⟩ := h
    exact ih m s' (inv_step env s m a hi ha) h2

/-! ### Unfolding lemmas for build_url -/

/-- When the prefixed domain fails to parse, `build_url` propagates the
error. -/
theorem build_url_parse_error (net : Net) (domain path : String) (e : ParseErr)
    (h : net.parse ("http://" ++ domain) = .error e) :
    build_url net domain path = .error e := by
  unfold build_url
  rw [h]
  rfl

/-- When the prefixed domain parses, `build_url` is the join against it. -/
theorem build_url_parse_ok (net : Net) (domain path : String) (base : Url)
    (h : net.parse ("http://" ++ domain) = .ok base) :
    build_url net domain path = net.join base path := by
  unfold build_url
  rw [h]
  rfl

/-! ### Claims about fetching.rs -/

/-- Claim C5: `url_status` resolves the path against the domain; on
resolution failure it returns `Malformed` with the origin path and raw
string, performing no network I/O (its result is independent of the GET
oracle); on success it returns `Accessible` for an in-time 2xx response,
`BadStatus` with the code for an in-time non-2xx response,
`ConnectionFailed` for an in-time failed request, and `TimedOut` whenever
the response misses the deadline, whatever the late result was (it is
discarded); the caller always receives exactly one outcome (`url_status` is
a total function) and every outcome carries the origin reference; the
deadline is the fixed 10 seconds. -/
theorem c5_fetch_with_timeout_classification :
    (∀ (net : Net) (domain old_path path : String) (e : ParseErr),
        build_url net domain path = .error e →
        url_status net domain old_path path = .Malformed old_path path) ∧
    (∀ (n1 n2 : Net) (domain old_path path : String),
        n1.parse = n2.parse → n1.join = n2.join →
        (∃ e, build_url n1 domain path = .error e) →
        url_status n1 domain old_path path = url_status n2 domain old_path path) ∧
    (∀ (net : Net) (domain old_path path : String) (url : Url) (c : Nat),
        build_url net domain path = .ok url →
        net.get url = { result := .response c, inTime := true } →
        isSuccess c = true →
        url_status net domain old_path path = .Accessible old_path url) ∧
    (∀ (net : Net) (domain old_path path : String) (url : Url) (c : Nat),
        build_url net domain path = .ok url →
        net.get url = { result := .response c, inTime := true } →
        isSuccess c = false →
        url_status net domain old_path path = .BadStatus old_path url c) ∧
    (∀ (net : Net) (domain old_path path : String) (url : Url),
        build_url net domain path = .ok url →
        net.get url = { result := .failed, inTime := true } →
        url_status net domain old_path path = .ConnectionFailed old_path url) ∧
    (∀ (net : Net) (domain old_path path : String) (url : Url) (r : FetchResult),
        build_url net domain path = .ok url →
        net.get url = { result := r, inTime := false } →
        url_status net domain old_path path = .TimedOut old_path url) ∧
    (∀ (net : Net) (domain old_path path : String),
        originOf (url_status net domain old_path path) = old_path) ∧
    TIMEOUT_SECS = 10 := by
  refine ⟨?_, ?_, ?_, ?_, ?_, ?_, ?_, rfl⟩
  · intro net domain old_path path e h
    simp [url_status, h]
  · intro n1 n2 domain old_path path hp hj he
    obtain ⟨e, h⟩ := he
    have hb : build_url n2 domain path = build_url n1 domain path := by
      simp [build_url, hp, hj]
    simp [url_status, h, hb]
  · intro net domain old_path path url c h hg hs
    simp [url_status, h, hg, requestState, hs]
  · intro net domain old_path path url c h hg hs
    simp [url_status, h, hg, requestState, hs]
  · intro net domain old_path path url h hg
    simp [url_status, h, hg, requestState]
  · intro net domain old_path path url r h hg
    simp [url_status, h, hg]
  · intro net domain old_path path
    unfold url_status
    cases hb : build_url net domain path with
    | error e => simp [originOf]
    | ok url =>
      simp only []
      split
      · cases hr : (net.get url).result with
        | response c =>
          simp only [requestState]
          split <;> simp [originOf]
        | failed => simp [requestState, originOf]
      · simp [originOf]

/-- Witness for C5: in the concrete network `netW` the path `"/a"` on
domain `"d"` resolves to `uW` and a 200 response in time is classified
`Accessible` carrying the origin reference. -/
theorem c5_witness : url_status netW "d" "o" "/a" = .Accessible "o" uW :=
  c5_fetch_with_timeout_classification.2.2.1 netW "d" "o" "/a" uW 200
    rfl rfl (by decide)

/-- Claim C10: `build_url` forms the base by prepending the literal
`"http://"` to the target domain (conjunct 3 exhibits the definition as
parse-of-`"http://" ++ domain` followed by a join); hence, for any URL
library in which parsing a `"http://"`-prefixed string yields scheme
`http` and joining a relative reference preserves the base's scheme, every
relative path resolves to a URL with scheme `http` — independently of any
seed URL, which `build_url` never sees; and a domain that fails to parse in
that position makes `url_status` return `Malformed` for every path. -/
theorem c10_build_url_http_scheme :
    (∀ (net : Net) (Rel : String → Prop),
        (∀ str url, net.parse ("http://" ++ str) = .ok url → url.scheme = "http") →
        (∀ base p url, Rel p → net.join base p = .ok url → url.scheme = base.scheme) →
        ∀ domain path url, Rel path → build_url net domain path = .ok url →
          url.scheme = "http") ∧
    (∀ (net : Net) (domain : String) (e : ParseErr),
        net.parse ("http://" ++ domain) = .error e →
        ∀ old_path path, url_status net domain old_path path = .Malformed old_path path) ∧
    (∀ (net : Net) (domain path : String),
        build_url net domain path
          = (net.parse ("http://" ++ domain)).bind fun base => net.join base path) := by
  refine ⟨?_, ?_, ?_⟩
  · intro net Rel hp hj domain path url hrel hb
    cases hparse : net.parse ("http://" ++ domain) with
    | error e =>
      rw [build_url_parse_error net domain path e hparse] at hb
      exact Except.noConfusion hb
    | ok base =>
      rw [build_url_parse_ok net domain path base hparse] at hb
      rw [hj base path url hrel hb, hp domain base hparse]
  · intro net domain e h old_path path
    simp [url_status, build_url_parse_error net domain path e h]
  · intro net domain path
    rfl

/-- Witness for C10: with the concrete library `netW`, the relative path
`"/a"` on domain `"d"` resolves to `uW`, whose scheme is `http`. -/
theorem c10_witness : build_url netW "d" "/a" = .ok uW ∧ uW.scheme = "http" :=
  ⟨rfl,
   c10_build_url_http_scheme.1 netW (fun p => p = "/a")
     (by
       intro str url h
       simp only [netW] at h
       split at h
       · rw [← Except.ok.inj h]
       · simp at h)
     (by
       intro base p url hrel h
       simp only [netW] at h
       rw [← Except.ok.inj h])
     "d" "/a" uW rfl rfl⟩

/-- Claim C9 (failing scenario): a transport failure of the second fetch,
performed during link expansion, is not reported as an outcome — `fetch_url`
hits its `expect` and panics.  Concretely, in the network `net3` whose
requests all fail: the first fetch converts the same failure into the
ordinary outcome `ConnectionFailed`, but `fetch_url` (and with it
`fetch_all_urls`) returns no value at all, and in the crawl model the
expanding worker dies with the in-flight counter stuck at 1 and nothing
published, so the failure is not local to the URL. -/
theorem c9_second_fetch_failure_panics :
    fetch_url net3 exUrl = none ∧
    fetch_all_urls net3 exUrl = none ∧
    url_status net3 "d" "s" "s" = .ConnectionFailed "s" exUrl ∧
    (run env3 (initState "s")
        [.wClaim 0, .wCount 0, .wDedup 0, .wFetch 0, .wExpand 0]).map
      (fun st => (st.workers[0]?, st.active, st.chan, st.yielded))
      = some (some (.dead "s"), 1, [], []) := by
  refine ⟨rfl, rfl, rfl, rfl⟩

/-! ### Claims about crawling.rs -/

/-- Claim C2 (amended): a worker whose `try_recv` fails snoozes and retries
the loop when it observes a nonzero in-flight counter, and breaks out of
the loop when it observes zero.  (The original claim's addendum that at
that observation no producer can remain is refuted separately: a worker
between claim and increment is invisible to the counter.) -/
theorem c2_failed_claim_policy :
    (∀ (env : Env) (s : CrawlState) (i : Nat),
        s.workers[i]? = some .idle → s.queue = [] → s.active ≠ 0 →
        applyStep env s (.wPoll i) = some s) ∧
    (∀ (env : Env) (s : CrawlState) (i : Nat),
        s.workers[i]? = some .idle → s.queue = [] → s.active = 0 →
        applyStep env s (.wPoll i) = some { s with workers := s.workers.set i .exited }) := by
  constructor
  · intro env s i hw hq ha
    simp [applyStep, hw, hq, ha]
  · intro env s i hw hq ha
    simp [applyStep, hw, hq, ha]

/-- Witness for C2: in a concrete idle state with an empty queue and a zero
counter, the polling worker exits. -/
theorem c2_witness :
    applyStep env1 stEmpty (.wPoll 0)
      = some { stEmpty with workers := stEmpty.workers.set 0 .exited } :=
  c2_failed_claim_policy.2 env1 stEmpty 0 rfl rfl rfl

/-- Counterexample for C2 as stated: after worker 0 claims the seed but
before it increments the counter, worker 1 fails its claim, observes
`InFlightCounter == 0` and exits — yet worker 0 is a remaining producer,
and indeed later enqueues `"/a"`.  So at the exit observation a producer
that can enqueue further work did remain. -/
theorem c2_counterexample :
    (run env2 (initState "s") [.wClaim 0, .wPoll 1]).map
      (fun s => (s.workers[1]?, s.active, s.queue)) = some (some .exited, 0, []) ∧
    (run env2 (initState "s")
        [.wClaim 0, .wPoll 1, .wCount 0, .wDedup 0, .wFetch 0, .wExpand 0]).map
      (fun s => (s.workers[1]?, s.queue)) = some (some .exited, ["/a"]) :=
  ⟨rfl, rfl⟩

/-- Claim C1 (failing execution): the Result Stream can end without ever
yielding an outcome for an enqueued, never-suppressed URL.  Schedule: the
consumer polls inside the window where worker 0 has removed the seed from
the queue but not yet incremented the counter; it sees an empty outcome
channel and a zero counter and ends the stream.  The crawl then runs to
completion: every worker exits, the seed's outcome sits unread in the
channel, and the stream yielded nothing — the seed was enqueued
(`enqueued = ["s"]`), was never suppressed as a duplicate (it entered
`visited` and was fetched), yet the stream produced no outcome for it. -/
theorem c1_premature_stream_end :
    (run env1 (initState "s")
        [.wClaim 0, .cPoll, .wCount 0, .wDedup 0, .wFetch 0, .wExpand 0, .wDone 0,
         .wSend 0, .wPoll 0, .wPoll 1, .wPoll 2, .wPoll 3, .wPoll 4, .wPoll 5,
         .wPoll 6, .wPoll 7, .wPoll 8, .wPoll 9]).map
      (fun s => (s.consumer, s.yielded, s.enqueued, s.visited, s.chan, s.workers))
      = some (.ended, [], ["s"], ["s"], [("s", .Malformed "s" "s")],
              List.replicate 10 .exited) :=
  rfl

/-- Claim C4: the membership check and the insertion into the visited set
happen in one critical section (one atomic step of the model, mirroring the
single `Mutex` block of lines 65–76), so along every run no URL is ever
inserted twice — at most one claimant of a URL proceeds to fetch it.  A
worker that observes its URL already visited decrements the counter and
returns to `idle` in that same step: the resulting state differs only in
`active` and the worker's phase, so nothing is fetched and no outcome is
ever published for that claim; a worker that observes it unvisited inserts
it and proceeds to `fetching` atomically. -/
theorem c4_dedup_atomic :
    (∀ (env : Env) (seed : String) (acts : List Act) (s : CrawlState),
        run env (initState seed) acts = some s → s.visited.Nodup) ∧
    (∀ (env : Env) (s : CrawlState) (i : Nat) (u : String),
        s.workers[i]? = some (.counted u) → u ∈ s.visited →
        applyStep env s (.wDedup i)
          = some { s with active := s.active - 1, workers := s.workers.set i .idle }) ∧
    (∀ (env : Env) (s : CrawlState) (i : Nat) (u : String),
        s.workers[i]? = some (.counted u) → u ∉ s.visited →
        applyStep env s (.wDedup i)
          = some { s with visited := u :: s.visited,
                          workers := s.workers.set i (.fetching u) }) := by
  refine ⟨?_, ?_, ?_⟩
  · intro env seed acts s h
    exact (inv_run env acts _ s (inv_init seed) h).2.2
  · intro env s i u hw hm
    simp [applyStep, hw, hm]
  · intro env s i u hw hm
    simp [applyStep, hw, hm]

/-- Witness for C4: worker 0 holding the unvisited URL `"s"` inserts it and
proceeds to fetch in one step. -/
theorem c4_witness :
    applyStep env1 stC (.wDedup 0)
      = some { stC with visited := "s" :: stC.visited,
                        workers := stC.workers.set 0 (.fetching "s") } :=
  c4_dedup_atomic.2.2 env1 stC 0 "s" rfl (by decide)

/-- Claim C8: along every run from a seeded initial state the in-flight
counter stays within `0 ≤ active ≤ THREADS`; moreover the two `assert!`
conditions always hold where the code checks them — after any enabled
increment the counter is at most `THREADS`, and after any enabled
completion decrement it is at least 0 — so the asserts never fire. -/
theorem c8_counter_bounds :
    (∀ (env : Env) (seed : String) (acts : List Act) (s : CrawlState),
        run env (initState seed) acts = some s →
        0 ≤ s.active ∧ s.active ≤ THREADS) ∧
    (∀ (env : Env) (seed : String) (acts : List Act) (s : CrawlState) (i : Nat) (u : String),
        run env (initState seed) acts = some s →
        s.workers[i]? = some (.claimed u) → s.active + 1 ≤ THREADS) ∧
    (∀ (env : Env) (seed : String) (acts : List Act) (s : CrawlState) (i : Nat)
        (u : String) (st : UrlState),
        run env (initState seed) acts = some s →
        s.workers[i]? = some (.finished u st) → 0 ≤ s.active - 1) := by
  refine ⟨?_, ?_, ?_⟩
  · intro env seed acts s h
    obtain ⟨hlen, hact, -⟩ := inv_run env acts _ s (inv_init seed) h
    have hle := List.countP_le_length inFlight (l := s.workers)
    simp only [countIF] at hact
    simp only [THREADS]
    omega
  · intro env seed acts s i u h hw
    obtain ⟨hlen, hact, -⟩ := inv_run env acts _ s (inv_init seed) h
    have hb := countP_lt_of_false inFlight s.workers i (.claimed u) hw (by simp [inFlight])
    simp only [countIF] at hact
    simp only [THREADS]
    omega
  · intro env seed acts s i u st h hw
    obtain ⟨hlen, hact, -⟩ := inv_run env acts _ s (inv_init seed) h
    have hb := one_le_countP inFlight s.workers i (.finished u st) hw (by simp [inFlight])
    simp only [countIF] at hact
    omega

/-- Witness for C8: the empty run from the seeded initial state satisfies
the bounds. -/
theorem c8_witness :
    0 ≤ (initState "s").active ∧ (initState "s").active ≤ THREADS :=
  c8_counter_bounds.1 env1 "s" [] (initState "s") rfl

/-- Claim C7: one arm of `Crawler::next` per case — an available outcome is
returned immediately; an empty channel with a nonzero counter leaves the
state unchanged (snooze and retry the pull); an empty channel with a zero
counter ends the sequence; and once ended, the iterator participates in no
further step (no more elements). -/
theorem c7_next_pull_semantics :
    (∀ (env : Env) (s : CrawlState) (p : String × UrlState)
        (rest : List (String × UrlState)),
        s.consumer = .streaming → s.chan = p :: rest →
        applyStep env s .cNext = some { s with chan := rest, yielded := s.yielded ++ [p] }) ∧
    (∀ (env : Env) (s : CrawlState),
        s.consumer = .streaming → s.chan = [] → s.active ≠ 0 →
        applyStep env s .cPoll = some s) ∧
    (∀ (env : Env) (s : CrawlState),
        s.consumer = .streaming → s.chan = [] → s.active = 0 →
        applyStep env s .cPoll = some { s with consumer := .ended }) ∧
    (∀ (env : Env) (s : CrawlState) (a : Act),
        s.consumer = .ended → (a = .cNext ∨ a = .cPoll) →
        applyStep env s a = none) := by
  refine ⟨?_, ?_, ?_, ?_⟩
  · intro env s p rest hc hch
    simp [applyStep, hc, hch]
  · intro env s hc hch ha
    simp [applyStep, hc, hch, ha]
  · intro env s hc hch ha
    simp [applyStep, hc, hch, ha]
  · intro env s a hc hor
    rcases hor with h | h <;> subst h <;> simp [applyStep, hc]

/-- Witness for C7: with an empty channel and zero counter the concrete
consumer ends the stream. -/
theorem c7_witness :
    applyStep env1 stEmpty .cPoll = some { stEmpty with consumer := .ended } :=
  c7_next_pull_semantics.2.2.1 env1 stEmpty rfl rfl rfl

/-- Setting a worker to a phase other than `publishing` cannot create a
`publishing` observation that was not already there. -/
theorem set_no_publishing (ws : List WPhase) (j : Nat) (p : WPhase) (i : Nat)
    (u : String) (st : UrlState) (hp : ∀ u2 st2, p ≠ .publishing u2 st2)
    (h : (ws.set j p)[i]? = some (.publishing u st)) :
    ws[i]? = some (.publishing u st) := by
  rw [List.getElem?_set] at h
  split at h
  · split at h
    · exact absurd (Option.some.inj h) (hp u st)
    · exact Option.noConfusion h
  · exact h

/-- Claim C3: claiming a URL (the successful `try_recv`) removes it from
the queue while leaving the counter untouched; the increment is a separate,
later transition out of the `claimed` phase; the decrement is the
transition into the `publishing` phase; the channel send is only enabled in
the `publishing` phase and leaves the counter untouched; and (last
conjunct) no step other than the decrementing `wDone` ever puts a worker
into the `publishing` phase — so for every processed URL the decrement
happens strictly before the outcome is published. -/
theorem c3_counter_update_ordering :
    (∀ (env : Env) (s : CrawlState) (i : Nat) (u : String) (rest : List String),
        s.workers[i]? = some .idle → s.queue = u :: rest →
        applyStep env s (.wClaim i)
          = some { s with queue := rest, workers := s.workers.set i (.claimed u) }) ∧
    (∀ (env : Env) (s : CrawlState) (i : Nat) (u : String),
        s.workers[i]? = some (.claimed u) → s.active + 1 ≤ THREADS →
        applyStep env s (.wCount i)
          = some { s with active := s.active + 1,
                          workers := s.workers.set i (.counted u) }) ∧
    (∀ (env : Env) (s : CrawlState) (i : Nat) (u : String) (st : UrlState),
        s.workers[i]? = some (.finished u st) → 0 ≤ s.active - 1 →
        applyStep env s (.wDone i)
          = some { s with active := s.active - 1,
                          workers := s.workers.set i (.publishing u st) }) ∧
    (∀ (env : Env) (s : CrawlState) (i : Nat) (u : String) (st : UrlState),
        s.workers[i]? = some (.publishing u st) →
        applyStep env s (.wSend i)
          = some { s with chan := s.chan ++ [(u, st)],
                          workers := s.workers.set i .idle }) ∧
    (∀ (env : Env) (s : CrawlState) (a : Act) (s' : CrawlState) (i : Nat)
        (u : String) (st : UrlState),
        applyStep env s a = some s' →
        s'.workers[i]? = some (.publishing u st) →
        s.workers[i]? = some (.publishing u st)
          ∨ (a = .wDone i ∧ s.workers[i]? = some (.finished u st))) := by
  refine ⟨?_, ?_, ?_, ?_, ?_⟩
  · intro env s i u rest hw hq
    simp [applyStep, hw, hq]
  · intro env s i u hw ha
    simp [applyStep, hw, ha]
  · intro env s i u st hw ha
    simp [applyStep, hw, ha]
  · intro env s i u st hw
    simp [applyStep, hw]
  · intro env s a s' i u st h hw
    cases a with
    | wClaim j =>
      cases hq : s.workers[j]? with
      | none => simp [applyStep, hq] at h
      | some w =>
        cases w <;> simp [applyStep, hq] at h
        cases hqu : s.queue with
        | nil => rw [hqu] at h; simp at h
        | cons v rest =>
          rw [hqu] at h
          simp at h
          subst h
          exact Or.inl (set_no_publishing s.workers j _ i u st (by intro u2 st2 hc; cases hc) hw)
    | wCount j =>
      cases hq : s.workers[j]? with
      | none => simp [applyStep, hq] at h
      | some w =>
        cases w <;> simp [applyStep, hq] at h
        split at h <;> simp at h <;> subst h <;>
          exact Or.inl (set_no_publishing s.workers j _ i u st (by intro u2 st2 hc; cases hc) hw)
    | wDedup j =>
      cases hq : s.workers[j]? with
      | none => simp [applyStep, hq] at h
      | some w =>
        cases w <;> simp [applyStep, hq] at h
        split at h <;> simp at h <;> subst h <;>
          exact Or.inl (set_no_publishing s.workers j _ i u st (by intro u2 st2 hc; cases hc) hw)
    | wFetch j =>
      cases hq : s.workers[j]? with
      | none => simp [applyStep, hq] at h
      | some w =>
        cases w <;> simp [applyStep, hq] at h
        subst h
        exact Or.inl (set_no_publishing s.workers j _ i u st (by intro u2 st2 hc; cases hc) hw)
    | wExpand j =>
      cases hq : s.workers[j]? with
      | none => simp [applyStep, hq] at h
      | some w =>
        cases w <;> simp [applyStep, hq] at h
        rename_i cur stt
        cases stt <;> simp at h
        case Accessible o url =>
          split at h
          · cases hl : env.links url with
            | some ls =>
              rw [hl] at h
              simp at h
              subst h
              exact Or.inl (set_no_publishing s.workers j _ i u st
                (by intro u2 st2 hc; cases hc) hw)
            | none =>
              rw [hl] at h
              simp at h
              subst h
              exact Or.inl (set_no_publishing s.workers j _ i u st
                (by intro u2 st2 hc; cases hc) hw)
          · simp at h
            subst h
            exact Or.inl (set_no_publishing s.workers j _ i u st
              (by intro u2 st2 hc; cases hc) hw)
        all_goals
          subst h
          exact Or.inl (set_no_publishing s.workers j _ i u st
            (by intro u2 st2 hc; cases hc) hw)
    | wDone j =>
      cases hq : s.workers[j]? with
      | none => simp [applyStep, hq] at h
      | some w =>
        cases w <;> simp [applyStep, hq] at h
        rename_i cur stt
        split at h <;> simp at h <;> subst h
        · rw [List.getElem?_set] at hw
          split at hw
          · rename_i hji
            split at hw
            · obtain ⟨h1, h2⟩ := WPhase.publishing.inj (Option.some.inj hw)
              subst h1
              subst h2
              subst hji
              exact Or.inr ⟨rfl, hq⟩
            · exact Option.noConfusion hw
          · exact Or.inl hw
        · exact Or.inl (set_no_publishing s.workers j _ i u st
            (by intro u2 st2 hc; cases hc) hw)
    | wSend j =>
      cases hq : s.workers[j]? with
      | none => simp [applyStep, hq] at h
      | some w =>
        cases w <;> simp [applyStep, hq] at h
        subst h
        exact Or.inl (set_no_publishing s.workers j _ i u st (by intro u2 st2 hc; cases hc) hw)
    | wPoll j =>
      cases hq : s.workers[j]? with
      | none => simp [applyStep, hq] at h
      | some w =>
        cases w <;> simp [applyStep, hq] at h
        cases hqu : s.queue with
        | nil =>
          rw [hqu] at h
          simp at h
          split at h <;> simp at h <;> subst h
          · exact Or.inl (set_no_publishing s.workers j _ i u st
              (by intro u2 st2 hc; cases hc) hw)
          · exact Or.inl hw
        | cons v rest => rw [hqu] at h; simp at h
    | cNext =>
      cases hc : s.consumer <;> simp [applyStep, hc] at h
      cases hch : s.chan with
      | nil => rw [hch] at h; simp at h
      | cons p rest =>
        rw [hch] at h
        simp at h
        subst h
        exact Or.inl hw
    | cPoll =>
      cases hc : s.consumer <;> simp [applyStep, hc] at h
      cases hch : s.chan with
      | nil =>
        rw [hch] at h
        simp at h
        split at h <;> simp at h <;> subst h
        · exact Or.inl hw
        · exact Or.inl hw
      | cons p rest => rw [hch] at h; simp at h

/-- Witness for C3: worker 0 claims the seed from the concrete initial
state; the queue shrinks and the counter is untouched by this step. -/
theorem c3_witness :
    applyStep env1 (initState "s") (.wClaim 0)
      = some { initState "s" with
                 queue := [],
                 workers := (initState "s").workers.set 0 (.claimed "s") } :=
  c3_counter_update_ordering.1 env1 (initState "s") 0 "s" [] rfl rfl

/-- Claim C6: the expansion step enqueues the links found on the page when
and only when the worker's outcome is `Accessible` and the resolved URL's
`domain()` is exactly `Some` of the target domain (string equality); with a
different (or absent) domain, or any other outcome variant, the step leaves
the queue untouched; and (last conjunct) across all actions of the system
the queue only ever grows by such an expansion — every other step leaves it
unchanged or removes its head. -/
theorem c6_in_domain_expansion_only :
    (∀ (env : Env) (s : CrawlState) (i : Nat) (u o : String) (url : Url)
        (ls : List String),
        s.workers[i]? = some (.expanding u (.Accessible o url)) →
        url.domain = some env.domain → env.links url = some ls →
        applyStep env s (.wExpand i)
          = some { s with queue := s.queue ++ ls, enqueued := s.enqueued ++ ls,
                          workers := s.workers.set i (.finished u (.Accessible o url)) }) ∧
    (∀ (env : Env) (s : CrawlState) (i : Nat) (u : String) (st : UrlState),
        s.workers[i]? = some (.expanding u st) →
        (∀ o url, st = .Accessible o url → url.domain ≠ some env.domain) →
        applyStep env s (.wExpand i)
          = some { s with workers := s.workers.set i (.finished u st) }) ∧
    (∀ (env : Env) (s : CrawlState) (a : Act) (s' : CrawlState),
        applyStep env s a = some s' →
        s'.queue = s.queue
          ∨ (∃ v, s.queue = v :: s'.queue)
          ∨ ∃ i u o url ls, a = .wExpand i
              ∧ s.workers[i]? = some (.expanding u (.Accessible o url))
              ∧ url.domain = some env.domain ∧ env.links url = some ls
              ∧ s'.queue = s.queue ++ ls) := by
  refine ⟨?_, ?_, ?_⟩
  · intro env s i u o url ls hw hd hl
    simp [applyStep, hw, hd, hl]
  · intro env s i u st hw hne
    cases st with
    | Accessible o url =>
      have hd := hne o url rfl
      simp [applyStep, hw, hd]
    | BadStatus o url c => simp [applyStep, hw]
    | ConnectionFailed o url => simp [applyStep, hw]
    | TimedOut o url => simp [applyStep, hw]
    | Malformed o raw => simp [applyStep, hw]
  · intro env s a s' h
    cases a with
    | wClaim j =>
      cases hq : s.workers[j]? with
      | none => simp [applyStep, hq] at h
      | some w =>
        cases w <;> simp [applyStep, hq] at h
        cases hqu : s.queue with
        | nil => rw [hqu] at h; simp at h
        | cons v rest =>
          rw [hqu] at h
          simp at h
          subst h
          exact Or.inr (Or.inl ⟨v, rfl⟩)
    | wCount j =>
      cases hq : s.workers[j]? with
      | none => simp [applyStep, hq] at h
      | some w =>
        cases w <;> simp [applyStep, hq] at h
        split at h <;> simp at h <;> subst h <;> exact Or.inl rfl
    | wDedup j =>
      cases hq : s.workers[j]? with
      | none => simp [applyStep, hq] at h
      | some w =>
        cases w <;> simp [applyStep, hq] at h
        split at h <;> simp at h <;> subst h <;> exact Or.inl rfl
    | wFetch j =>
      cases hq : s.workers[j]? with
      | none => simp [applyStep, hq] at h
      | some w =>
        cases w <;> simp [applyStep, hq] at h
        subst h
        exact Or.inl rfl
    | wExpand j =>
      cases hq : s.workers[j]? with
      | none => simp [applyStep, hq] at h
      | some w =>
        cases w <;> simp [applyStep, hq] at h
        rename_i cur stt
        cases stt <;> simp at h
        case Accessible o url =>
          split at h
          · rename_i hd
            cases hl : env.links url with
            | some ls =>
              rw [hl] at h
              simp at h
              subst h
              exact Or.inr (Or.inr ⟨j, cur, o, url, ls, rfl, hq, hd, hl, rfl⟩)
            | none =>
              rw [hl] at h
              simp at h
              subst h
              exact Or.inl rfl
          · simp at h
            subst h
            exact Or.inl rfl
        all_goals
          subst h
          exact Or.inl rfl
    | wDone j =>
      cases hq : s.workers[j]? with
      | none => simp [applyStep, hq] at h
      | some w =>
        cases w <;> simp [applyStep, hq] at h
        split at h <;> simp at h <;> subst h <;> exact Or.inl rfl
    | wSend j =>
      cases hq : s.workers[j]? with
      | none => simp [applyStep, hq] at h
      | some w =>
        cases w <;> simp [applyStep, hq] at h
        subst h
        exact Or.inl rfl
    | wPoll j =>
      cases hq : s.workers[j]? with
      | none => simp [applyStep, hq] at h
      | some w =>
        cases w <;> simp [applyStep, hq] at h
        cases hqu : s.queue with
        | nil =>
          rw [hqu] at h
          simp at h
          split at h <;> simp at h <;> subst h <;> exact Or.inl (by simp [hqu])
        | cons v rest => rw [hqu] at h; simp at h
    | cNext =>
      cases hc : s.consumer <;> simp [applyStep, hc] at h
      cases hch : s.chan with
      | nil => rw [hch] at h; simp at h
      | cons p rest =>
        rw [hch] at h
        simp at h
        subst h
        exact Or.inl rfl
    | cPoll =>
      cases hc : s.consumer <;> simp [applyStep, hc] at h
      cases hch : s.chan with
      | nil =>
        rw [hch] at h
        simp at h
        split at h <;> simp at h <;> subst h <;> exact Or.inl rfl
      | cons p rest => rw [hch] at h; simp at h

/-- Witness for C6: worker 0, holding an accessible outcome on the target
domain, enqueues the page's single link `"/a"`. -/
theorem c6_witness :
    applyStep env2 stE (.wExpand 0)
      = some { stE with queue := stE.queue ++ ["/a"],
                        enqueued := stE.enqueued ++ ["/a"],
                        workers := stE.workers.set 0
                          (.finished "s" (.Accessible "s" exUrl)) } :=
  c6_in_domain_expansion_only.1 env2 stE 0 "s" "s" exUrl ["/a"] rfl rfl rfl
